import Mathlib

/-!
# Verification of the receipt-extraction service

A shallow embedding of the data model and algorithms of the
`extract-pdf-data` repository (an Express/TypeScript service that uploads
PDF receipts, validates them, extracts structured data via pdf-parse /
Tesseract OCR and regex heuristics, and persists the results).

Strings are modelled as `List Char` (Unicode scalar values); `.length` in
JavaScript counts UTF-16 code units, which `jsLength` reproduces.  Amounts
(`parseFloat` results on strings of the shape `\d+[.,]\d{2}` after the
code's character stripping) are modelled in integer hundredths, which is
order- and zero-faithful for every comparison the code performs on them.
Asynchronous code is modelled by explicit oracles (extraction outcomes,
clock deltas) and event traces.
-/

namespace ExtractPdf

/-! ## JavaScript string primitives -/

/-- The set matched by the JavaScript regex class `\s` (which coincides
with the set stripped by `String.prototype.trim`): tab, LF, VT, FF, CR,
space, NBSP, U+1680, U+2000–U+200A, U+2028, U+2029, U+202F, U+205F,
U+3000 and U+FEFF. -/
def jsWs (c : Char) : Bool :=
  [0x9, 0xA, 0xB, 0xC, 0xD, 0x20, 0xA0, 0x1680, 0x2028, 0x2029,
   0x202F, 0x205F, 0x3000, 0xFEFF].contains c.toNat
  || (0x2000 ≤ c.toNat && c.toNat ≤ 0x200A)

/-- JavaScript `String.prototype.length`: the number of UTF-16 code units
(astral code points count twice). -/
def jsLength (cs : List Char) : Nat :=
  (cs.map (fun c => if c.toNat < 0x10000 then 1 else 2)).sum

/-- `String.prototype.trim`. -/
def jsTrim (cs : List Char) : List Char :=
  ((cs.dropWhile jsWs).reverse.dropWhile jsWs).reverse

/-! ## `OCRService.normalizeText` (src/services/ocrService.ts)

```
.replace(/[＄＄$]/g, '$')        -- U+FF04 fullwidth dollar
.replace(/[．．.]/g, '.')        -- U+FF0E fullwidth full stop
.replace(/[,，]/g, ',')          -- U+FF0C fullwidth comma
.replace(/[  ᠎ -​  　﻿]/g, ' ')
.replace(/\s+/g, ' ')
.replace(/\n+/g, '\n')
.trim()
```
Each of the first four replacements is a per-character map; the fifth
collapses every maximal run of `\s` characters to a single space; the
sixth collapses every maximal run of `'\n'` to a single `'\n'`. -/

/-- `.replace(/[＄＄$]/g, '$')`. -/
def mapDollar (c : Char) : Char :=
  if c = Char.ofNat 0xFF04 ∨ c = '$' then '$' else c

/-- `.replace(/[．．.]/g, '.')`. -/
def mapDot (c : Char) : Char :=
  if c = Char.ofNat 0xFF0E ∨ c = '.' then '.' else c

/-- `.replace(/[,，]/g, ',')`. -/
def mapComma (c : Char) : Char :=
  if c = ',' ∨ c = Char.ofNat 0xFF0C then ',' else c

/-- The class `[  ᠎ -​  　﻿]`. -/
def specialSpace (c : Char) : Bool :=
  [0xA0, 0x1680, 0x180E, 0x202F, 0x205F, 0x3000, 0xFEFF].contains c.toNat
  || (0x2000 ≤ c.toNat && c.toNat ≤ 0x200B)

/-- `.replace(/[ …﻿]/g, ' ')`. -/
def mapSpace (c : Char) : Char :=
  if specialSpace c then ' ' else c

/-- The four character-level replacements, in source order. -/
def mapChars (c : Char) : Char :=
  mapSpace (mapComma (mapDot (mapDollar c)))

/-- `.replace(/\s+/g, ' ')`: each maximal run of `\s` characters becomes a
single `' '`.  The flag records whether the previous character belonged to
a whitespace run whose replacement was already emitted. -/
def collapseWsAux (inRun : Bool) : List Char → List Char
  | [] => []
  | c :: cs =>
    if jsWs c then
      if inRun then collapseWsAux true cs else ' ' :: collapseWsAux true cs
    else c :: collapseWsAux false cs

def collapseWs (l : List Char) : List Char := collapseWsAux false l

/-- `.replace(/\n+/g, '\n')`. -/
def collapseNlAux (inRun : Bool) : List Char → List Char
  | [] => []
  | c :: cs =>
    if c = '\n' then
      if inRun then collapseNlAux true cs else '\n' :: collapseNlAux true cs
    else c :: collapseNlAux false cs

def collapseNl (l : List Char) : List Char := collapseNlAux false l

/-- `OCRService.normalizeText`. -/
def normalizeText (cs : List Char) : List Char :=
  jsTrim (collapseNl (collapseWs (cs.map mapChars)))

/-- No two adjacent characters are both JS whitespace. -/
def NoConsecWs (l : List Char) : Prop :=
  List.Chain' (fun a b => ¬(jsWs a = true ∧ jsWs b = true)) l

/-! ### Lemmas about the normalization pipeline -/

theorem collapseWsAux_ws_true {c : Char} (hc : jsWs c = true) (cs : List Char) :
    collapseWsAux true (c :: cs) = collapseWsAux true cs := by
  rw [collapseWsAux]; simp [hc]

theorem collapseWsAux_ws_false {c : Char} (hc : jsWs c = true) (cs : List Char) :
    collapseWsAux false (c :: cs) = ' ' :: collapseWsAux true cs := by
  rw [collapseWsAux]; simp [hc]

theorem collapseWsAux_not_ws {c : Char} (hc : jsWs c = false) (p : Bool) (cs : List Char) :
    collapseWsAux p (c :: cs) = c :: collapseWsAux false cs := by
  rw [collapseWsAux]; simp [hc]

theorem collapseNlAux_nl_true (cs : List Char) :
    collapseNlAux true ('\n' :: cs) = collapseNlAux true cs := by
  rw [collapseNlAux]; simp

theorem collapseNlAux_nl_false (cs : List Char) :
    collapseNlAux false ('\n' :: cs) = '\n' :: collapseNlAux true cs := by
  rw [collapseNlAux]; simp

theorem collapseNlAux_not_nl {c : Char} (hc : ¬ c = '\n') (p : Bool) (cs : List Char) :
    collapseNlAux p (c :: cs) = c :: collapseNlAux false cs := by
  rw [collapseNlAux]; simp [hc]

theorem collapseWsAux_mem :
    ∀ (l : List Char) (p : Bool) (c : Char),
      c ∈ collapseWsAux p l → c ∈ l ∨ c = ' ' := by
  intro l
  induction l with
  | nil => intro p c hc; simp [collapseWsAux] at hc
  | cons d ds ih =>
    intro p c hc
    cases hd : jsWs d with
    | true =>
      cases p with
      | true =>
        rw [collapseWsAux_ws_true hd] at hc
        rcases ih true c hc with h | h
        · exact Or.inl (List.mem_cons_of_mem _ h)
        · exact Or.inr h
      | false =>
        rw [collapseWsAux_ws_false hd] at hc
        rcases List.mem_cons.mp hc with h | h
        · exact Or.inr h
        · rcases ih true c h with h2 | h2
          · exact Or.inl (List.mem_cons_of_mem _ h2)
          · exact Or.inr h2
    | false =>
      rw [collapseWsAux_not_ws hd] at hc
      rcases List.mem_cons.mp hc with h | h
      · exact Or.inl (by simp [h])
      · rcases ih false c h with h2 | h2
        · exact Or.inl (List.mem_cons_of_mem _ h2)
        · exact Or.inr h2

theorem collapseWsAux_ws_space :
    ∀ (l : List Char) (p : Bool) (c : Char),
      c ∈ collapseWsAux p l → jsWs c = true → c = ' ' := by
  intro l
  induction l with
  | nil => intro p c hc; simp [collapseWsAux] at hc
  | cons d ds ih =>
    intro p c hc hcw
    cases hd : jsWs d with
    | true =>
      cases p with
      | true =>
        rw [collapseWsAux_ws_true hd] at hc
        exact ih true c hc hcw
      | false =>
        rw [collapseWsAux_ws_false hd] at hc
        rcases List.mem_cons.mp hc with h | h
        · exact h
        · exact ih true c h hcw
    | false =>
      rw [collapseWsAux_not_ws hd] at hc
      rcases List.mem_cons.mp hc with h | h
      · subst h; rw [hd] at hcw; exact absurd hcw (by simp)
      · exact ih false c h hcw

theorem collapseWsAux_true_head :
    ∀ (l : List Char) (c : Char),
      (collapseWsAux true l).head? = some c → jsWs c = false := by
  intro l
  induction l with
  | nil => intro c hc; simp [collapseWsAux] at hc
  | cons d ds ih =>
    intro c hc
    cases hd : jsWs d with
    | true =>
      rw [collapseWsAux_ws_true hd] at hc
      exact ih c hc
    | false =>
      rw [collapseWsAux_not_ws hd] at hc
      simp only [List.head?_cons, Option.some.injEq] at hc
      subst hc; exact hd

theorem collapseWsAux_noConsec :
    ∀ (l : List Char) (p : Bool), NoConsecWs (collapseWsAux p l) := by
  intro l
  induction l with
  | nil => intro p; simp [collapseWsAux, NoConsecWs]
  | cons d ds ih =>
    intro p
    cases hd : jsWs d with
    | true =>
      cases p with
      | true => rw [collapseWsAux_ws_true hd]; exact ih true
      | false =>
        rw [collapseWsAux_ws_false hd]
        refine List.chain'_cons'.mpr ⟨?_, ih true⟩
        intro y hy hcon
        exact absurd hcon.2 (by simp [collapseWsAux_true_head ds y hy])
    | false =>
      rw [collapseWsAux_not_ws hd]
      refine List.chain'_cons'.mpr ⟨?_, ih false⟩
      intro y _ hcon
      exact absurd hcon.1 (by simp [hd])

/-- A list that is already fully collapsed (every whitespace character is
`' '`, no two adjacent) is a fixed point of `collapseWs`. -/
theorem collapseWsAux_fixed :
    ∀ (l : List Char), NoConsecWs l →
      (∀ c ∈ l, jsWs c = true → c = ' ') → collapseWsAux false l = l := by
  intro l
  induction l with
  | nil => intro _ _; simp [collapseWsAux]
  | cons d ds ih =>
    intro hch hsp
    cases hd : jsWs d with
    | true =>
      have hd' : d = ' ' := hsp d (by simp) hd
      rw [collapseWsAux_ws_false hd, ← hd']
      congr 1
      cases ds with
      | nil => simp [collapseWsAux]
      | cons e es =>
        have he : jsWs e = false := by
          cases he : jsWs e with
          | false => rfl
          | true => exact absurd ⟨hd, he⟩ (List.chain'_cons.mp hch).1
        rw [collapseWsAux_not_ws he]
        have hrest := ih (List.chain'_cons.mp hch).2
          (fun c hc hcw => hsp c (List.mem_cons_of_mem _ hc) hcw)
        rw [collapseWsAux_not_ws he] at hrest
        exact hrest
    | false =>
      rw [collapseWsAux_not_ws hd]
      congr 1
      exact ih (List.chain'_cons'.mp hch).2
        (fun c hc hcw => hsp c (List.mem_cons_of_mem _ hc) hcw)

theorem collapseNlAux_mem :
    ∀ (l : List Char) (p : Bool) (c : Char),
      c ∈ collapseNlAux p l → c ∈ l := by
  intro l
  induction l with
  | nil => intro p c hc; simp [collapseNlAux] at hc
  | cons d ds ih =>
    intro p c hc
    by_cases hd : d = '\n'
    · subst hd
      cases p with
      | true =>
        rw [collapseNlAux_nl_true] at hc
        exact List.mem_cons_of_mem _ (ih true c hc)
      | false =>
        rw [collapseNlAux_nl_false] at hc
        rcases List.mem_cons.mp hc with h | h
        · simp [h]
        · exact List.mem_cons_of_mem _ (ih true c h)
    · rw [collapseNlAux_not_nl hd] at hc
      rcases List.mem_cons.mp hc with h | h
      · simp [h]
      · exact List.mem_cons_of_mem _ (ih false c h)

/-- On a list with no adjacent whitespace pair, `.replace(/\n+/g,'\n')` is
the identity (every `'\n'` run has length one, `'\n'` being whitespace). -/
theorem collapseNlAux_fixed :
    ∀ (l : List Char), NoConsecWs l → collapseNlAux false l = l := by
  intro l
  induction l with
  | nil => intro _; simp [collapseNlAux]
  | cons d ds ih =>
    intro hch
    by_cases hd : d = '\n'
    · subst hd
      rw [collapseNlAux_nl_false]
      congr 1
      cases ds with
      | nil => simp [collapseNlAux]
      | cons e es =>
        have he : ¬ e = '\n' := by
          intro he
          exact (List.chain'_cons.mp hch).1
            ⟨by simp [jsWs], by simp [he, jsWs]⟩
        rw [collapseNlAux_not_nl he]
        have hrest := ih (List.chain'_cons.mp hch).2
        rw [collapseNlAux_not_nl he] at hrest
        exact hrest
    · rw [collapseNlAux_not_nl hd]
      congr 1
      exact ih (List.chain'_cons'.mp hch).2

theorem dropWhile_head?_false {p : Char → Bool} :
    ∀ (l : List Char) (c : Char), (l.dropWhile p).head? = some c → p c = false := by
  intro l
  induction l with
  | nil => intro c hc; simp at hc
  | cons d ds ih =>
    intro c hc
    cases hd : p d with
    | true => rw [List.dropWhile_cons_of_pos (by simp [hd])] at hc; exact ih c hc
    | false =>
      rw [List.dropWhile_cons_of_neg (by simp [hd])] at hc
      simp only [List.head?_cons, Option.some.injEq] at hc
      subst hc; exact hd

theorem jsTrim_mem (l : List Char) (c : Char) (hc : c ∈ jsTrim l) : c ∈ l := by
  unfold jsTrim at hc
  rw [List.mem_reverse] at hc
  have h1 := (List.dropWhile_suffix (l := (l.dropWhile jsWs).reverse) jsWs).subset hc
  rw [List.mem_reverse] at h1
  exact (List.dropWhile_suffix jsWs).subset h1

theorem NoConsecWs.rev {l : List Char} (h : NoConsecWs l) : NoConsecWs l.reverse := by
  unfold NoConsecWs
  rw [List.chain'_reverse]
  exact List.Chain'.imp (fun a b hab hc => hab ⟨hc.2, hc.1⟩) h

theorem jsTrim_noConsec {l : List Char} (h : NoConsecWs l) : NoConsecWs (jsTrim l) := by
  unfold jsTrim
  apply NoConsecWs.rev
  apply List.Chain'.suffix _ (List.dropWhile_suffix jsWs)
  apply NoConsecWs.rev
  exact List.Chain'.suffix h (List.dropWhile_suffix jsWs)

theorem jsTrim_getLast_not_ws (l : List Char) (c : Char)
    (hc : (jsTrim l).getLast? = some c) : jsWs c = false := by
  unfold jsTrim at hc
  rw [List.getLast?_reverse] at hc
  exact dropWhile_head?_false _ c hc

theorem jsTrim_head_not_ws (l : List Char) (c : Char)
    (hc : (jsTrim l).head? = some c) : jsWs c = false := by
  unfold jsTrim at hc
  rw [List.head?_reverse] at hc
  rcases hz : (l.dropWhile jsWs).reverse.dropWhile jsWs with _ | ⟨z, zs⟩
  · rw [hz] at hc; simp at hc
  · -- the trimmed-right list is a nonempty suffix, so it keeps the getLast?
    obtain ⟨pre, hpre⟩ := List.dropWhile_suffix (l := (l.dropWhile jsWs).reverse) jsWs
    rw [hz] at hpre hc
    have : (l.dropWhile jsWs).reverse.getLast? = some c := by
      rw [← hpre, List.getLast?_append]
      rw [← hc]
      rcases hlast : (z :: zs).getLast? with _ | w
      · simp at hlast
      · simp [hlast]
    rw [List.getLast?_reverse] at this
    exact dropWhile_head?_false _ c this

theorem jsTrim_fixed (l : List Char)
    (hh : ∀ c, l.head? = some c → jsWs c = false)
    (hl : ∀ c, l.getLast? = some c → jsWs c = false) : jsTrim l = l := by
  have h1 : l.dropWhile jsWs = l := by
    cases l with
    | nil => simp
    | cons c cs => exact List.dropWhile_cons_of_neg (by simp [hh c rfl])
  unfold jsTrim
  rw [h1]
  have h2 : l.reverse.dropWhile jsWs = l.reverse := by
    cases hr : l.reverse with
    | nil => simp
    | cons c cs =>
      have : l.getLast? = some c := by
        rw [List.getLast?_eq_head?_reverse, hr]; rfl
      rw [List.dropWhile_cons_of_neg (by simp [hl c this])]
  rw [h2, List.reverse_reverse]

theorem mapDollar_cases (c : Char) : mapDollar c = '$' ∨ mapDollar c = c := by
  unfold mapDollar; split_ifs <;> simp

theorem mapDot_cases (c : Char) : mapDot c = '.' ∨ mapDot c = c := by
  unfold mapDot; split_ifs <;> simp

theorem mapComma_cases (c : Char) : mapComma c = ',' ∨ mapComma c = c := by
  unfold mapComma; split_ifs <;> simp

theorem mapSpace_cases (c : Char) : mapSpace c = ' ' ∨ mapSpace c = c := by
  unfold mapSpace; split_ifs <;> simp

theorem mapChars_out (c : Char) :
    mapChars c = c ∨ mapChars c = '$' ∨ mapChars c = '.' ∨
      mapChars c = ',' ∨ mapChars c = ' ' := by
  unfold mapChars
  rcases mapDollar_cases c with h1 | h1 <;> rw [h1] <;>
    [skip; rcases mapDot_cases c with h2 | h2] <;>
    first
    | (rcases mapDot_cases '$' with h2 | h2 <;> rw [h2] <;>
        first
        | (rcases mapComma_cases '.' with h3 | h3 <;> rw [h3] <;>
            first
            | (rcases mapSpace_cases ',' with h4 | h4 <;> rw [h4] <;> simp)
            | (rcases mapSpace_cases '.' with h4 | h4 <;> rw [h4] <;> simp))
        | (rcases mapComma_cases '$' with h3 | h3 <;> rw [h3] <;>
            first
            | (rcases mapSpace_cases ',' with h4 | h4 <;> rw [h4] <;> simp)
            | (rcases mapSpace_cases '$' with h4 | h4 <;> rw [h4] <;> simp)))
    | (rw [h2] <;>
        first
        | (rcases mapComma_cases '.' with h3 | h3 <;> rw [h3] <;>
            first
            | (rcases mapSpace_cases ',' with h4 | h4 <;> rw [h4] <;> simp)
            | (rcases mapSpace_cases '.' with h4 | h4 <;> rw [h4] <;> simp))
        | (rcases mapComma_cases c with h3 | h3 <;> rw [h3] <;>
            first
            | (rcases mapSpace_cases ',' with h4 | h4 <;> rw [h4] <;> simp)
            | (rcases mapSpace_cases c with h4 | h4 <;> rw [h4] <;> simp)))

theorem mapChars_idem (c : Char) : mapChars (mapChars c) = mapChars c := by
  rcases mapChars_out c with h | h | h | h | h
  · rw [h, h]
  all_goals rw [h]; decide

theorem map_fixed {f : Char → Char} :
    ∀ (l : List Char), (∀ c ∈ l, f c = c) → l.map f = l := by
  intro l
  induction l with
  | nil => intro _; simp
  | cons d ds ih =>
    intro h
    simp only [List.map_cons]
    rw [h d (by simp), ih (fun c hc => h c (List.mem_cons_of_mem _ hc))]

theorem normalizeText_mem_fixed (s : List Char) :
    ∀ c ∈ normalizeText s, mapChars c = c := by
  intro c hc
  unfold normalizeText at hc
  have h1 := jsTrim_mem _ c hc
  have h2 := collapseNlAux_mem _ false c h1
  rcases collapseWsAux_mem _ false c h2 with h3 | h3
  · rcases List.mem_map.mp h3 with ⟨b, _, hb⟩
    rw [← hb]
    exact mapChars_idem b
  · rw [h3]; decide

theorem normalizeText_ws_space (s : List Char) :
    ∀ c ∈ normalizeText s, jsWs c = true → c = ' ' := by
  intro c hc hcw
  unfold normalizeText at hc
  have h1 := jsTrim_mem _ c hc
  have h2 := collapseNlAux_mem _ false c h1
  exact collapseWsAux_ws_space _ false c h2 hcw

theorem normalizeText_eq_trim_collapse (s : List Char) :
    normalizeText s = jsTrim (collapseWs (s.map mapChars)) := by
  unfold normalizeText collapseNl
  rw [collapseNlAux_fixed (collapseWs (s.map mapChars)) (collapseWsAux_noConsec _ false)]

theorem normalizeText_noConsec (s : List Char) : NoConsecWs (normalizeText s) := by
  rw [normalizeText_eq_trim_collapse]
  exact jsTrim_noConsec (collapseWsAux_noConsec _ false)

theorem normalizeText_head_not_ws (s : List Char) (c : Char)
    (hc : (normalizeText s).head? = some c) : jsWs c = false := by
  unfold normalizeText at hc
  exact jsTrim_head_not_ws _ c hc

theorem normalizeText_getLast_not_ws (s : List Char) (c : Char)
    (hc : (normalizeText s).getLast? = some c) : jsWs c = false := by
  unfold normalizeText at hc
  exact jsTrim_getLast_not_ws _ c hc

/-- **C9.** `OCRService.normalizeText` is idempotent, its output never
contains two consecutive JS-whitespace characters, and the output has no
leading or trailing whitespace. -/
theorem C9_normalizeText_idempotent_no_double_ws (s : List Char) :
    normalizeText (normalizeText s) = normalizeText s ∧
    NoConsecWs (normalizeText s) ∧
    (normalizeText s).head?.all (fun c => ! jsWs c) = true ∧
    (normalizeText s).getLast?.all (fun c => ! jsWs c) = true := by
  refine ⟨?_, normalizeText_noConsec s, ?_, ?_⟩
  · conv_lhs => rw [normalizeText_eq_trim_collapse]
    rw [map_fixed _ (normalizeText_mem_fixed s)]
    unfold collapseWs
    rw [collapseWsAux_fixed _ (normalizeText_noConsec s) (normalizeText_ws_space s)]
    exact jsTrim_fixed _ (normalizeText_head_not_ws s) (normalizeText_getLast_not_ws s)
  · rcases hh : (normalizeText s).head? with _ | c
    · rfl
    · simp [normalizeText_head_not_ws s c hh]
  · rcases hh : (normalizeText s).getLast? with _ | c
    · rfl
    · simp [normalizeText_getLast_not_ws s c hh]

/-! ## Errors (src/types/errors.ts) -/

inductive ErrorType where
  | VALIDATION | NOT_FOUND | FILE | DATABASE | PROCESSING
deriving DecidableEq, Repr

structure ValidationDetail where
  fieldName : String
  message : String
deriving DecidableEq, Repr

/-- `AppError` carries a message, an HTTP status code, an `ErrorType` and
optional validation details. -/
structure AppError where
  message : String
  statusCode : Nat
  type : ErrorType
  details : Option (List ValidationDetail)
deriving DecidableEq, Repr

/-- `AppError.validationError` (the code's optional `details` argument is
omitted by every call site modelled here). -/
def AppError.validationError (m : String) : AppError := ⟨m, 400, .VALIDATION, none⟩

def AppError.notFoundError (m : String) : AppError := ⟨m, 404, .NOT_FOUND, none⟩

def AppError.fileError (m : String) : AppError := ⟨m, 400, .FILE, none⟩

def AppError.databaseError (m : String) : AppError := ⟨m, 500, .DATABASE, none⟩

def AppError.processingError (m : String) : AppError := ⟨m, 500, .PROCESSING, none⟩

/-! ## `errorHandler` middleware (src/middleware/uploadMiddleware.ts) -/

inductive MulterCode where
  | LIMIT_FILE_SIZE | otherCode
deriving DecidableEq

/-- The four disjoint classes of errors distinguished by `errorHandler`:
`multer.MulterError`, `AppError`, TypeORM `QueryFailedError`, and
everything else. -/
inductive HandlerInput where
  | multerErr (code : MulterCode) (message : String)
  | appErr (e : AppError)
  | queryFailedErr (message : String)
  | otherErr (message : String)

/-- The HTTP response produced by `errorHandler`: status code plus the
JSON body's `type` and `message` fields (the body's `status` field is the
constant string `'error'`; `details`/`stack` are development-only extras
not modelled). -/
structure ErrResponse where
  status : Nat
  errType : ErrorType
  message : String
deriving DecidableEq, Repr

/-- `errorHandler(err, req, res, next)`; `dev` is
`process.env.NODE_ENV === 'development'`. -/
def errorHandler (err : HandlerInput) (dev : Bool) : ErrResponse :=
  match err with
  | .multerErr code msg =>
    ⟨400, .VALIDATION,
      if code = .LIMIT_FILE_SIZE then "File size too large. Maximum size is 5MB"
      else "Upload error: " ++ msg⟩
  | .appErr e => ⟨e.statusCode, e.type, e.message⟩
  | .queryFailedErr _ => ⟨500, .DATABASE, "Database operation failed"⟩
  | .otherErr msg => ⟨500, .PROCESSING, if dev then msg else "Internal server error"⟩

/-- **C7.** Every `AppError` is answered with its own `statusCode` and a
body carrying its `type` and `message`; the factory constructors give 400
for validation and file errors, 404 for not-found, 500 for database and
processing errors; any error that is neither an `AppError` nor a Multer
nor a TypeORM error yields status 500 with type `PROCESSING_ERROR`. -/
theorem C7_errorHandler_status_codes (e : AppError) (dev : Bool) (m : String) :
    errorHandler (.appErr e) dev = ⟨e.statusCode, e.type, e.message⟩ ∧
    (AppError.validationError m).statusCode = 400 ∧
    (AppError.fileError m).statusCode = 400 ∧
    (AppError.notFoundError m).statusCode = 404 ∧
    (AppError.databaseError m).statusCode = 500 ∧
    (AppError.processingError m).statusCode = 500 ∧
    (errorHandler (.otherErr m) dev).status = 500 ∧
    (errorHandler (.otherErr m) dev).errType = .PROCESSING :=
  ⟨rfl, rfl, rfl, rfl, rfl, rfl, rfl, rfl⟩

/-! ## `OCRService.extractTextFromPdf` (src/services/ocrService.ts)

The pdf-parse result text and the Tesseract recognition text are oracle
inputs (the success path of the surrounding I/O is modelled; worker
lifecycle is modelled separately below).  The returned pair records
whether the Tesseract branch ran and the text that is returned. -/

def extractTextFromPdf (pdfText ocrText : List Char) : Bool × List Char :=
  -- if (pdfData.text && pdfData.text.trim().length > 0) extractedText = normalize
  let extractedText :=
    if pdfText ≠ [] ∧ jsLength (jsTrim pdfText) > 0 then normalizeText pdfText else []
  -- if (!extractedText || extractedText.length < 50) → Tesseract
  if extractedText = [] ∨ jsLength extractedText < 50 then (true, normalizeText ocrText)
  else (false, extractedText)

theorem jsLength_eq_zero (l : List Char) : jsLength l = 0 ↔ l = [] := by
  cases l with
  | nil => simp [jsLength]
  | cons c cs =>
    simp only [jsLength, List.map_cons, List.sum_cons]
    constructor
    · intro h
      exfalso
      by_cases hc : c.toNat < 0x10000 <;> simp [hc] at h <;> omega
    · intro h; exact absurd h (by simp)

/-- Characterization of `extractTextFromPdf`: the two oracle texts fully
determine whether Tesseract runs and what is returned. -/
theorem extractTextFromPdf_eq (pdfText ocrText : List Char) :
    extractTextFromPdf pdfText ocrText =
      if jsTrim pdfText = [] ∨ jsLength (normalizeText pdfText) < 50
      then (true, normalizeText ocrText)
      else (false, normalizeText pdfText) := by
  unfold extractTextFromPdf
  by_cases h1 : pdfText ≠ [] ∧ jsLength (jsTrim pdfText) > 0
  · rw [if_pos h1]
    have htrim : jsTrim pdfText ≠ [] := by
      intro h
      rw [h] at h1
      simp [jsLength] at h1
    by_cases hlt : jsLength (normalizeText pdfText) < 50
    · rw [if_pos (Or.inr hlt), if_pos (Or.inr hlt)]
    · rw [if_neg ?_, if_neg ?_]
      · rintro (h | h)
        · exact htrim h
        · exact hlt h
      · rintro (h | h)
        · rw [h] at hlt; exact hlt (by simp [jsLength])
        · exact hlt h
  · rw [if_neg h1]
    have htrim : jsTrim pdfText = [] := by
      push_neg at h1
      by_cases hnil : pdfText = []
      · rw [hnil]; rfl
      · exact (jsLength_eq_zero _).mp (by have := h1 hnil; omega)
    rw [if_pos (Or.inl rfl), if_pos (Or.inl htrim)]

/-- **C3.** In `OCRService.extractTextFromPdf` the Tesseract engine is
invoked if and only if pdf-parse yields no text (its text trims to empty)
or the normalized pdf-parse text is shorter than 50 characters; otherwise
the normalized pdf-parse text is returned without running OCR. -/
theorem C3_ocr_iff_short_text (pdfText ocrText : List Char) :
    ((extractTextFromPdf pdfText ocrText).1 = true ↔
      (jsTrim pdfText = [] ∨ jsLength (normalizeText pdfText) < 50)) ∧
    ((extractTextFromPdf pdfText ocrText).1 = false →
      (extractTextFromPdf pdfText ocrText).2 = normalizeText pdfText) ∧
    ((extractTextFromPdf pdfText ocrText).1 = true →
      (extractTextFromPdf pdfText ocrText).2 = normalizeText ocrText) := by
  rw [extractTextFromPdf_eq]
  by_cases h : jsTrim pdfText = [] ∨ jsLength (normalizeText pdfText) < 50
  · rw [if_pos h]; simp [h]
  · rw [if_neg h]; simp [h]

/-- Closed instance of C3: a pdf-parse text of 61 letters is long enough,
so Tesseract is skipped and the normalized pdf-parse text is returned. -/
theorem C3_witness :
    (extractTextFromPdf
      "abcdefghijklmnopqrstuvwxyzabcdefghijklmnopqrstuvwxyzabcdefgh".data
      "tess".data).2 =
    normalizeText
      "abcdefghijklmnopqrstuvwxyzabcdefghijklmnopqrstuvwxyzabcdefgh".data :=
  (C3_ocr_iff_short_text _ _).2.1 (by decide)

/-! ## OCR worker lifecycle (src/services/ocrService.ts and
`ReceiptExtractionService.ensureInitialized`)

`OCRService` holds `private worker: Tesseract.Worker | null = null`.
Workers are modelled by identifiers; `live` lists every created worker
that has not been terminated.  `ocrInit` models `initialize()` —
`this.worker = await createWorker('eng')` assigns a fresh worker and does
not terminate a previously assigned one.  Failure-free executions are
modelled (every awaited call succeeds). -/

structure OCRState where
  worker : Option Nat
  nextId : Nat
  live : List Nat
deriving DecidableEq, Repr

/-- `OCRService.initialize`. -/
def ocrInit (s : OCRState) : OCRState :=
  { worker := some s.nextId, nextId := s.nextId + 1, live := s.nextId :: s.live }

/-- The worker management part of `OCRService.extractTextFromPdf`:
`if (!this.worker) { await this.initialize(); }`. -/
def ocrExtractStep (s : OCRState) : OCRState :=
  if s.worker = none then ocrInit s else s

/-- `OCRService.terminate`: `if (this.worker) { await this.worker.terminate();
this.worker = null; }`. -/
def ocrTerminate (s : OCRState) : OCRState :=
  match s.worker with
  | some w => { worker := none, nextId := s.nextId, live := s.live.erase w }
  | none => s

/-- The combined state seen through the service layer:
`ReceiptExtractionService` owns the `OCRService` plus its own
`initialized` flag. -/
structure SysState where
  ocr : OCRState
  initFlag : Bool
deriving DecidableEq, Repr

def sysStart : SysState := ⟨⟨none, 0, []⟩, false⟩

/-- The operations reachable from the controller:
`extractReceiptData` (which runs `ensureInitialized` and then
`extractTextFromPdf`) and `terminate`. -/
inductive SysOp where
  | extractData
  | terminateOp

def sysStep (s : SysState) : SysOp → SysState
  | .extractData =>
    -- ensureInitialized: if (!this.initialized) { await ocr.initialize(); this.initialized = true }
    let s1 := if s.initFlag then s else { ocr := ocrInit s.ocr, initFlag := true }
    -- then OCRService.extractTextFromPdf runs its own null-guarded init
    { s1 with ocr := ocrExtractStep s1.ocr }
  | .terminateOp => { s with ocr := ocrTerminate s.ocr }

inductive SysReachable : SysState → Prop where
  | base : SysReachable sysStart
  | step (s : SysState) (op : SysOp) : SysReachable s → SysReachable (sysStep s op)

/-- Invariant: the live workers are exactly the one in the `worker` field,
and before `initialized` is set no worker exists. -/
def SysInv (s : SysState) : Prop :=
  (s.ocr.live = match s.ocr.worker with | some w => [w] | none => []) ∧
  (s.initFlag = false → s.ocr.worker = none)

theorem sysInv_start : SysInv sysStart := ⟨rfl, fun _ => rfl⟩

theorem sysInv_step (s : SysState) (op : SysOp) (h : SysInv s) :
    SysInv (sysStep s op) := by
  obtain ⟨⟨w, nid, lv⟩, fl⟩ := s
  obtain ⟨hlive, hflag⟩ := h
  cases op with
  | extractData =>
    cases fl with
    | false =>
      have hw : w = none := hflag rfl
      subst hw
      simp only at hlive
      subst hlive
      constructor <;> simp [sysStep, ocrExtractStep, ocrInit, SysInv]
    | true =>
      cases w with
      | none =>
        simp only at hlive
        subst hlive
        constructor <;> simp [sysStep, ocrExtractStep, ocrInit, SysInv]
      | some ww =>
        simp only at hlive
        subst hlive
        constructor <;> simp [sysStep, ocrExtractStep, ocrInit, SysInv]
  | terminateOp =>
    cases w with
    | none =>
      simp only at hlive
      subst hlive
      constructor <;> simp [sysStep, ocrTerminate, SysInv]
    | some ww =>
      simp only at hlive
      subst hlive
      constructor <;> simp [sysStep, ocrTerminate, SysInv]

theorem sysInv_reachable (s : SysState) (h : SysReachable s) : SysInv s := by
  induction h with
  | base => exact sysInv_start
  | step s op _ ih => exact sysInv_step s op ih

/-- **C8.** In every state reachable through the service operations
(failure-free), at most one Tesseract worker is live: `initialize`
assigns the single worker field, `extractTextFromPdf` initializes only
when the field is null, and `terminate` terminates the worker and resets
the field to null. -/
theorem C8_at_most_one_worker (s : SysState) (h : SysReachable s) :
    s.ocr.live.length ≤ 1 := by
  obtain ⟨hlive, _⟩ := sysInv_reachable s h
  rw [hlive]
  cases s.ocr.worker <;> simp

/-- Closed instance of C8: after one extraction step from the start state,
at most one worker is live. -/
theorem C8_witness : (sysStep sysStart .extractData).ocr.live.length ≤ 1 :=
  C8_at_most_one_worker _ (SysReachable.step _ _ SysReachable.base)

/-! ## Parsing primitives shared by the receipt heuristics

JavaScript regex matching scans candidate start positions left to right;
within a position, the patterns used here are deterministic once one notes
that a greedy `\d+`/`\d{1,2}` group followed by a non-digit token must
consume an entire digit run (backtracking cannot move a digit into the
non-digit token). -/

def digitVal (c : Char) : Nat := c.toNat - '0'.toNat

/-- `parseInt` on a nonempty digit string. -/
def natOfDigits (ds : List Char) : Nat :=
  ds.foldl (fun n c => 10 * n + digitVal c) 0

/-- Leftmost-match scanning: try the matcher at every position, left to
right. -/
def scanFirst {α : Type} (f : List Char → Option α) : List Char → Option α
  | [] => f []
  | c :: cs =>
    match f (c :: cs) with
    | some a => some a
    | none => scanFirst f cs

/-- A match of the number core `\d+[.,]\d{2}`: integer-part value, the
two fraction digits as a number, and the separator character. -/
structure CoreNum where
  intPart : Nat
  frac : Nat
  sep : Char
deriving DecidableEq, Repr

/-- The continuation of `\d+[.,]\d{2}` after the digit run: a separator
and exactly two digits. -/
def coreAfterRun (intVal : Nat) : List Char → Option (CoreNum × List Char)
  | s :: d1 :: d2 :: r2 =>
    if (s = '.' ∨ s = ',') ∧ d1.isDigit ∧ d2.isDigit then
      some (⟨intVal, 10 * digitVal d1 + digitVal d2, s⟩, r2)
    else none
  | _ => none

/-- Match `\d+[.,]\d{2}` at the start of the list: a maximal digit run
(backtracking cannot shorten it, as the separator is not a digit), a
separator, exactly two digits.  Returns the components and the rest. -/
def matchCoreNum (cs : List Char) : Option (CoreNum × List Char) :=
  if cs.takeWhile Char.isDigit = [] then none
  else coreAfterRun (natOfDigits (cs.takeWhile Char.isDigit)) (cs.dropWhile Char.isDigit)

/-- `parseFloat(m.replace(',', '.'))` on a core-number match, in
hundredths (`a.bc` parses to the value whose hundredfold is `100a+bc`;
this integer scaling is order- and zero-faithful for every comparison the
code performs on the floats). -/
def valueDot (n : CoreNum) : Nat := n.intPart * 100 + n.frac

/-- `parseFloat(m.replace(/[$,]/g, ''))` in hundredths: a `','`
separator is deleted, so the digits on both sides concatenate into the
integer `100a+bc`, whose hundredfold is `(100a+bc)·100`. -/
def valueStrip (n : CoreNum) : Nat :=
  if n.sep = ',' then (n.intPart * 100 + n.frac) * 100 else valueDot n

/-- The keyword alternation of the total patterns, in source order. -/
def totalKeywords : List (List Char) :=
  ["total".data, "amount".data, "sum".data, "subtotal".data, "balance".data,
   "final".data, "due".data, "payment".data, "paid".data, "charge".data]

/-- Case-insensitive literal prefix match; returns the rest on success. -/
def stripPrefixCI : List Char → List Char → Option (List Char)
  | [], cs => some cs
  | _ :: _, [] => none
  | k :: ks, c :: cs => if c.toLower = k then stripPrefixCI ks cs else none

/-- Try the keyword alternation (first alternative wins; no two keywords
can match at the same position since none is a prefix of another). -/
def matchKeyword (cs : List Char) : Option (List Char) :=
  totalKeywords.foldr
    (fun k acc =>
      match stripPrefixCI k cs with
      | some r => some r
      | none => acc)
    none

def isWsOrColon (c : Char) : Bool := jsWs c || c = ':'

/-- Match the primary total pattern
`(?:total|amount|sum|subtotal|balance|final|due|payment|paid|charge)[\s:]*[$]?\s*(\d+[.,]\d{2})`
(case-insensitive) at this position.  The gap groups are deterministic:
`[\s:]*` must be maximal because neither `'$'` nor a digit is in `[\s:]`,
and likewise for `\s*`. -/
def matchTotalAt (cs : List Char) : Option CoreNum :=
  match matchKeyword cs with
  | none => none
  | some r1 =>
    let r2 := r1.dropWhile isWsOrColon
    let r3 := match r2 with
      | '$' :: t => t
      | _ => r2
    let r4 := r3.dropWhile jsWs
    match matchCoreNum r4 with
    | some (n, _) => some n
    | none => none

def findTotal (text : List Char) : Option CoreNum := scanFirst matchTotalAt text

/-- End-of-line position for a multiline `$`: end of string or just
before a `'\n'`. -/
def atEol : List Char → Bool
  | [] => true
  | c :: _ => c = '\n'

/-- The tail `\s*(?:total|…)?$` (flags `im`) of the alternative total
pattern: some whitespace, an optional keyword, then an end-of-line
position.  Expressed as existence over all backtracking choices. -/
def altTail : List Char → Bool
  | [] => true
  | c :: cs =>
    atEol (c :: cs)
    || (match matchKeyword (c :: cs) with
        | some r => atEol r
        | none => false)
    || (jsWs c && altTail cs)

/-- Match `(\d+[.,]\d{2})\s*(?:total|…)?$` at this position. -/
def matchAltAt (cs : List Char) : Option CoreNum :=
  match matchCoreNum cs with
  | some (n, rest) => if altTail rest then some n else none
  | none => none

def findAltTotal (text : List Char) : Option CoreNum := scanFirst matchAltAt text

theorem coreAfterRun_rest (v : Nat) (l : List Char) (n : CoreNum) (rest : List Char)
    (h : coreAfterRun v l = some (n, rest)) : l.length = rest.length + 3 := by
  match l with
  | [] => simp [coreAfterRun] at h
  | [a] => simp [coreAfterRun] at h
  | [a, b] => simp [coreAfterRun] at h
  | s :: d1 :: d2 :: r2 =>
    rw [coreAfterRun] at h
    split at h
    · simp only [Option.some.injEq, Prod.mk.injEq] at h
      rw [← h.2]
      simp
    · exact absurd h (by simp)

theorem matchCoreNum_rest_lt (cs : List Char) (n : CoreNum) (rest : List Char)
    (h : matchCoreNum cs = some (n, rest)) : rest.length < cs.length := by
  unfold matchCoreNum at h
  by_cases hrun : cs.takeWhile Char.isDigit = []
  · rw [if_pos hrun] at h; exact absurd h (by simp)
  · rw [if_neg hrun] at h
    have hsplit : (cs.takeWhile Char.isDigit).length +
        (cs.dropWhile Char.isDigit).length = cs.length := by
      rw [← List.length_append, List.takeWhile_append_dropWhile]
    have hpos : 0 < (cs.takeWhile Char.isDigit).length :=
      List.length_pos.mpr hrun
    have := coreAfterRun_rest _ _ _ _ h
    omega

/-- All matches of `/\$?\s*\d+[.,]\d{2}/g`, scanning left to right
without overlap.  The optional `\$?\s*` prefix is dropped: it contributes
no digits, `parseFloat` skips leading whitespace, `'$'` is stripped, and
the prefix cannot overlap a digit of an earlier match.  Recursion is by
fuel initialized to the string length (each step consumes at least one
character), keeping the definition kernel-computable. -/
def scanAmountsF : Nat → List Char → List CoreNum
  | 0, _ => []
  | _ + 1, [] => []
  | fuel + 1, c :: cs =>
    match matchCoreNum (c :: cs) with
    | some (n, rest) => n :: scanAmountsF fuel rest
    | none => scanAmountsF fuel cs

def scanAmounts (cs : List Char) : List CoreNum := scanAmountsF cs.length cs

/-! ## Date patterns -/

def isSep (c : Char) : Bool := c = '-' || c = '/'

/-- A `\d{1,2}` group followed by a non-digit token: the group must be an
entire digit run of length 1 or 2. -/
def shortGroup (cs : List Char) : Option (List Char × List Char) :=
  let r := cs.takeWhile Char.isDigit
  let t := cs.dropWhile Char.isDigit
  if r = [] ∨ 2 < r.length then none else some (r, t)

/-- A `\d{4}` group followed by `[-⧸]`: exactly four digits (a longer run
leaves a digit where the separator must be). -/
def longGroup (cs : List Char) : Option (List Char × List Char) :=
  let r := cs.takeWhile Char.isDigit
  let t := cs.dropWhile Char.isDigit
  if r.length = 4 then some (r, t) else none

def sepSplit : List Char → Option (Char × List Char)
  | c :: cs => if isSep c then some (c, cs) else none
  | [] => none

/-- `/(\d{1,2})[-⧸](\d{1,2})[-⧸](\d{4})/` at this position (the trailing
group is unconstrained afterwards, so it takes the first four digits of a
run of length at least four). -/
def matchF1At (cs : List Char) : Option (List Char × List Char × List Char) :=
  match shortGroup cs with
  | none => none
  | some (g1, t1) =>
    match sepSplit t1 with
    | none => none
    | some (_, t2) =>
      match shortGroup t2 with
      | none => none
      | some (g2, t3) =>
        match sepSplit t3 with
        | none => none
        | some (_, t4) =>
          let r3 := t4.takeWhile Char.isDigit
          if r3.length < 4 then none else some (g1, g2, r3.take 4)

/-- `/(\d{1,2})[-⧸](\d{1,2})[-⧸](\d{2})/` at this position. -/
def matchF2At (cs : List Char) : Option (List Char × List Char × List Char) :=
  match shortGroup cs with
  | none => none
  | some (g1, t1) =>
    match sepSplit t1 with
    | none => none
    | some (_, t2) =>
      match shortGroup t2 with
      | none => none
      | some (g2, t3) =>
        match sepSplit t3 with
        | none => none
        | some (_, t4) =>
          let r3 := t4.takeWhile Char.isDigit
          if r3.length < 2 then none else some (g1, g2, r3.take 2)

/-- `/(\d{4})[-⧸](\d{1,2})[-⧸](\d{1,2})/` at this position. -/
def matchF3At (cs : List Char) : Option (List Char × List Char × List Char) :=
  match longGroup cs with
  | none => none
  | some (g1, t1) =>
    match sepSplit t1 with
    | none => none
    | some (_, t2) =>
      match shortGroup t2 with
      | none => none
      | some (g2, t3) =>
        match sepSplit t3 with
        | none => none
        | some (_, t4) =>
          let r3 := t4.takeWhile Char.isDigit
          if r3 = [] then none else some (g1, g2, r3.take 2)

/-- `patterns.date`, alternative
`\d{1,2}[-⧸]\d{1,2}[-⧸]\d{2,4}`: returns the matched substring. -/
def matchShortDateAt (cs : List Char) : Option (List Char) :=
  match shortGroup cs with
  | none => none
  | some (g1, t1) =>
    match sepSplit t1 with
    | none => none
    | some (s1, t2) =>
      match shortGroup t2 with
      | none => none
      | some (g2, t3) =>
        match sepSplit t3 with
        | none => none
        | some (s2, t4) =>
          let r3 := t4.takeWhile Char.isDigit
          if r3.length < 2 then none
          else some (g1 ++ s1 :: g2 ++ s2 :: r3.take 4)

/-- `patterns.date`, alternative `\d{4}[-⧸]\d{1,2}[-⧸]\d{1,2}`. -/
def matchLongDateAt (cs : List Char) : Option (List Char) :=
  match longGroup cs with
  | none => none
  | some (g1, t1) =>
    match sepSplit t1 with
    | none => none
    | some (s1, t2) =>
      match shortGroup t2 with
      | none => none
      | some (g2, t3) =>
        match sepSplit t3 with
        | none => none
        | some (s2, t4) =>
          let r3 := t4.takeWhile Char.isDigit
          if r3 = [] then none
          else some (g1 ++ s1 :: g2 ++ s2 :: r3.take 2)

/-- First match of
`/(\d{1,2}[-⧸]\d{1,2}[-⧸]\d{2,4}|\d{4}[-⧸]\d{1,2}[-⧸]\d{1,2})/g`
(`dateMatch[0]` in `parseReceiptText`; alternatives tried in order at
each position). -/
def findDateStr (text : List Char) : Option (List Char) :=
  scanFirst
    (fun cs =>
      match matchShortDateAt cs with
      | some m => some m
      | none => matchLongDateAt cs)
    text

/-! ## `JSDate` and `ReceiptExtractionService.parseDate` -/

/-- A JavaScript `Date` built by `new Date(year, monthIndex, day)`,
recorded by its constructor arguments.  Finite integer arguments always
yield a valid date (`!isNaN(getTime())`), recorded in `valid`. -/
structure JSDate where
  year : Int
  monthIdx : Int
  day : Int
  valid : Bool
deriving DecidableEq, Repr

def mkDate (y m d : Int) : JSDate := ⟨y, m, d, true⟩

/-- The calendar year denoted by a `JSDate` (for a `day` within range):
JS date normalization adds `⌊monthIdx/12⌋` years. -/
def JSDate.calYear (dt : JSDate) : Int := dt.year + Int.fdiv dt.monthIdx 12

/-- The shared branch body of `parseDate`:
`if (match[1].length === 4) { new Date(+m[1], +m[2]-1, +m[3]) } else
{ const year = +m[3]; const fullYear = year < 100 ? 2000 + year : year;
new Date(fullYear, +m[1]-1, +m[2]) }`. -/
def parseDateBranch (g1 g2 g3 : List Char) : JSDate :=
  if g1.length = 4 then
    mkDate (natOfDigits g1) ((natOfDigits g2 : Int) - 1) (natOfDigits g3)
  else
    let year := natOfDigits g3
    let fullYear : Nat := if year < 100 then 2000 + year else year
    mkDate fullYear ((natOfDigits g1 : Int) - 1) (natOfDigits g2)

/-- `ReceiptExtractionService.parseDate`; `now` models `new Date()`,
returned when no format matches. -/
def parseDate (now : JSDate) (dateStr : List Char) : JSDate :=
  match scanFirst matchF1At dateStr with
  | some (g1, g2, g3) => parseDateBranch g1 g2 g3
  | none =>
    match scanFirst matchF2At dateStr with
    | some (g1, g2, g3) => parseDateBranch g1 g2 g3
    | none =>
      match scanFirst matchF3At dateStr with
      | some (g1, g2, g3) => parseDateBranch g1 g2 g3
      | none => now

/-- The `purchaseDate` computation of `parseReceiptText` (line 85-86). -/
def computeDate (now : JSDate) (text : List Char) : JSDate :=
  match findDateStr text with
  | some ds => parseDate now ds
  | none => now

/-! ## Merchant-name extraction -/

def isUpperAZ (c : Char) : Bool := 65 ≤ c.toNat && c.toNat ≤ 90

def isAsciiLetter (c : Char) : Bool :=
  isUpperAZ c || (97 ≤ c.toNat && c.toNat ≤ 122)

/-- The class `[A-Za-z0-9\s&]` (note `\s` includes `'\n'`). -/
def classNameChar (c : Char) : Bool :=
  isAsciiLetter c || c.isDigit || jsWs c || c = '&'

/-- The prefix of the list before its **last** `'\n'`, if any. -/
def beforeLastNl : List Char → Option (List Char)
  | [] => none
  | c :: cs =>
    match beforeLastNl cs with
    | some p => some (c :: p)
    | none => if c = '\n' then some [] else none

/-- `/^([A-Z][A-Za-z0-9\s&]{m,})(?:\n|$)/m` at a line-start position:
an uppercase letter, then the longest class-run prefix of length ≥ m that
is followed by `'\n'` or the end of the string (greedy with backtracking;
the only non-class character the run can stop at is not `'\n'`, since
`'\n'` is in the class, so intermediate stops are at `'\n'`s inside the
run). -/
def matchHeaderCore (minLen : Nat) (cs : List Char) : Option (List Char) :=
  match cs with
  | [] => none
  | c0 :: rest =>
    if isUpperAZ c0 then
      let run := rest.takeWhile classNameChar
      let t := rest.dropWhile classNameChar
      if t = [] then
        if minLen ≤ run.length then some (c0 :: run) else none
      else
        match beforeLastNl run with
        | some p => if minLen ≤ p.length then some (c0 :: p) else none
        | none => none
    else none

/-- Position just after the next `'\n'`. -/
def dropLine : List Char → Option (List Char)
  | [] => none
  | c :: cs => if c = '\n' then some cs else dropLine cs

theorem dropLine_lt :
    ∀ (cs rest : List Char), dropLine cs = some rest → rest.length < cs.length := by
  intro cs
  induction cs with
  | nil => intro rest h; simp [dropLine] at h
  | cons c cs ih =>
    intro rest h
    rw [dropLine] at h
    by_cases hc : c = '\n'
    · rw [if_pos hc] at h
      simp only [Option.some.injEq] at h
      subst h; simp
    · rw [if_neg hc] at h
      have := ih rest h
      simp
      omega

/-- Scan the `^`-anchored (multiline) positions: the start of the string
and the position after every `'\n'`. -/
def scanLineStartsF {α : Type} (f : List Char → Option α) : Nat → List Char → Option α
  | 0, cs => f cs
  | fuel + 1, cs =>
    match f cs with
    | some a => some a
    | none =>
      match dropLine cs with
      | some rest => scanLineStartsF f fuel rest
      | none => none

def scanLineStarts {α : Type} (f : List Char → Option α) (cs : List Char) : Option α :=
  scanLineStartsF f cs.length cs

/-- `/([A-Z][A-Za-z0-9\s&]{3,})\./i` at this position (`{3,}` greedy; the
literal `'.'` is not in the class, so only the maximal run can precede
it; the optional TLD group does not constrain matching). -/
def matchFooterAt (cs : List Char) : Option (List Char) :=
  match cs with
  | [] => none
  | c0 :: rest =>
    if isAsciiLetter c0 then
      let run := rest.takeWhile classNameChar
      let t := rest.dropWhile classNameChar
      if 3 ≤ run.length then
        match t with
        | '.' :: _ => some (c0 :: run)
        | _ => none
      else none
    else none

/-- Characters kept by `cleanMerchantName`'s first replace:
`[A-Za-z0-9\s&.,'-]`. -/
def keepMerchantChar (c : Char) : Bool :=
  isAsciiLetter c || c.isDigit || jsWs c || ['&', '.', ',', '\'', '-'].contains c

/-- The suffix alternation `INC|LLC|LTD|CORP|CO|CO\.|STORE|SHOP|MARKET|RETAIL`. -/
def merchantSuffixes : List (List Char) :=
  ["inc".data, "llc".data, "ltd".data, "corp".data, "co".data, "co.".data,
   "store".data, "shop".data, "market".data, "retail".data]

/-- Does `/\s+(?:INC|…|RETAIL)$/i` match starting exactly here?  `\s+`
must consume the whole whitespace run (no suffix starts with whitespace)
and the suffix must reach the end of the string. -/
def suffixMatchAt : List Char → Bool
  | [] => false
  | c :: rest =>
    jsWs c &&
      merchantSuffixes.any (fun k => stripPrefixCI k (rest.dropWhile jsWs) = some [])

/-- `.replace(/\s+(?:INC|…|RETAIL)$/i, '')`: remove from the leftmost
position where the anchored suffix pattern matches (if any). -/
def removeSuffix : List Char → List Char
  | [] => []
  | c :: cs => if suffixMatchAt (c :: cs) then [] else c :: removeSuffix cs

/-- `ReceiptExtractionService.cleanMerchantName`. -/
def cleanMerchantName (name : List Char) : List Char :=
  jsTrim (removeSuffix (collapseWs (name.filter keepMerchantChar)))

/-- `/^[A-Z][A-Za-z0-9\s&]+$/.test(cl)` (fully anchored, no flags). -/
def isFullNameLine : List Char → Bool
  | [] => false
  | c :: rest => isUpperAZ c && !rest.isEmpty && rest.all classNameChar

/-- `/^\d+[.,]\d{2}$/.test(cl)`. -/
def isAmountLine (cs : List Char) : Bool :=
  match matchCoreNum cs with
  | some (_, rest) => rest.isEmpty
  | none => false

/-- `/^\d{1,2}[-⧸]\d{1,2}[-⧸]\d{2,4}$/.test(cl)`. -/
def isDateLine (cs : List Char) : Bool :=
  match shortGroup cs with
  | none => false
  | some (_, t1) =>
    match sepSplit t1 with
    | none => false
    | some (_, t2) =>
      match shortGroup t2 with
      | none => false
      | some (_, t3) =>
        match sepSplit t3 with
        | none => false
        | some (_, t4) =>
          t4.all Char.isDigit && 2 ≤ t4.length && t4.length ≤ 4

/-- `/^(?:total|amount|…|charge)$/i.test(cl)`. -/
def isTotalKeywordLine (cs : List Char) : Bool :=
  totalKeywords.any (fun k => stripPrefixCI k cs = some [])

/-- The last-resort merchant search over the first ten lines
(receiptExtractionService.ts lines 144–163). -/
def merchantFallback : List (List Char) → List Char
  | [] => "Unknown Merchant".data
  | line :: rest =>
    let cleanLine := cleanMerchantName (jsTrim line)
    if cleanLine ≠ [] ∧ isFullNameLine cleanLine = true ∧
        3 ≤ jsLength cleanLine ∧ isAmountLine cleanLine = false ∧
        isDateLine cleanLine = false ∧ isTotalKeywordLine cleanLine = false then
      cleanLine
    else merchantFallback rest

/-- `text.split('\n')`. -/
def splitLines (text : List Char) : List (List Char) := text.splitOn '\n'

/-- The merchant-name computation of `parseReceiptText` (lines 123–166):
header pattern, then top-lines pattern, then footer pattern, then the
first-ten-lines fallback; `'Unknown Merchant'` if nothing matches. -/
def computeMerchantName (text : List Char) : List Char :=
  match scanLineStarts (matchHeaderCore 1) text with
  | some cap => cleanMerchantName cap
  | none =>
    match scanLineStarts (matchHeaderCore 3) text with
    | some cap => cleanMerchantName cap
    | none =>
      match scanFirst matchFooterAt text with
      | some cap => cleanMerchantName cap
      | none => merchantFallback ((splitLines text).take 10)

/-! ## Line items and totals -/

/-- The tail `\s+(\d+[.,]\d{2})$` of the item pattern, matched against
the whole remainder of a line (the final `$` forces the number to end the
line, and `\s+`/`\d+` are determined as before). -/
def itemTail (cs : List Char) : Option CoreNum :=
  match cs with
  | [] => none
  | c :: _ =>
    if jsWs c then
      match matchCoreNum (cs.dropWhile jsWs) with
      | some (n, []) => some n
      | _ => none
    else none

/-- `/(.+?)\s+(\d+[.,]\d{2})$/` on a line: the lazy `(.+?)` makes the
description the shortest nonempty prefix whose remainder matches the
tail; a match, if any, starts at position 0. -/
def itemScan (acc : List Char) : List Char → Option (List Char × CoreNum)
  | [] => none
  | c :: rest =>
    match itemTail rest with
    | some n => some (acc ++ [c], n)
    | none => itemScan (acc ++ [c]) rest

/-- `ReceiptExtractionService.extractItems`. -/
def extractItems (text : List Char) : List (List Char × Nat) :=
  (splitLines text).filterMap
    (fun line =>
      match itemScan [] line with
      | some (desc, n) => some (jsTrim desc, valueDot n)
      | none => none)

/-- The total-amount computation of `parseReceiptText` (lines 88–121):
primary keyword pattern, else end-of-line pattern, else the largest of
all `\$?\s*\d+[.,]\d{2}` matches (descending sort, first element), else
0. -/
def computeTotalAmount (text : List Char) : Nat :=
  match findTotal text with
  | some n => valueDot n
  | none =>
    match findAltTotal text with
    | some n => valueDot n
    | none =>
      let allAmounts := scanAmounts text
      if 0 < allAmounts.length then
        match (allAmounts.map valueStrip).mergeSort (fun a b => decide (b ≤ a)) with
        | a :: _ => a
        | [] => 0
      else 0

/-! ## `parseReceiptText`, validation, `extractReceiptData` -/

structure ParsedData where
  merchantName : List Char
  purchaseDate : JSDate
  totalAmount : Nat
  items : List (List Char × Nat)
deriving DecidableEq, Repr

/-- `ReceiptExtractionService.parseReceiptText`: extract date, total and
merchant name, then reject a merchant name that is `'Unknown Merchant'`
or shorter than 3 (lines 168–172), else return the data. -/
def parseReceiptText (now : JSDate) (text : List Char) : Except AppError ParsedData :=
  if computeMerchantName text = "Unknown Merchant".data ∨
      jsLength (computeMerchantName text) < 3 then
    .error (.validationError "Could not extract merchant name from receipt")
  else
    .ok ⟨computeMerchantName text, computeDate now text,
         computeTotalAmount text, extractItems text⟩

/-- `ReceiptExtractionService.validateExtractedData`. -/
def validateExtractedData (d : ParsedData) : Except AppError Unit :=
  -- if (!data.merchantName || data.merchantName === 'Unknown Merchant')
  if d.merchantName = [] ∨ d.merchantName = "Unknown Merchant".data then
    .error (.validationError "Could not extract merchant name from receipt")
  -- if (!data.totalAmount || data.totalAmount <= 0)
  else if d.totalAmount = 0 ∨ d.totalAmount ≤ 0 then
    .error (.validationError "Could not extract valid total amount from receipt")
  -- if (!(purchaseDate instanceof Date) || isNaN(purchaseDate.getTime()))
  else if d.purchaseDate.valid = false then
    .error (.validationError "Could not extract valid purchase date from receipt")
  else .ok ()

/-- `ReceiptExtractionService.extractReceiptData` after OCR: the
recognized text is the oracle input; parse, validate, return. -/
def extractReceiptData (now : JSDate) (text : List Char) : Except AppError ParsedData :=
  match parseReceiptText now text with
  | .error e => .error e
  | .ok d =>
    match validateExtractedData d with
    | .error e => .error e
    | .ok _ => .ok d

/-- **C2.** `extractReceiptData` rejects — with a 400 validation
`AppError` — any extraction whose merchant name is `'Unknown Merchant'`
or shorter than 3, whose total amount is not positive, or whose purchase
date is invalid; consequently every value it returns has a non-empty
merchant name of length at least 3 (and not `'Unknown Merchant'`), a
strictly positive total amount, and a valid date. -/
theorem C2_extract_validates (now : JSDate) (text : List Char) :
    (∀ d, extractReceiptData now text = .ok d →
      d.merchantName ≠ [] ∧ 3 ≤ jsLength d.merchantName ∧
      d.merchantName ≠ "Unknown Merchant".data ∧
      0 < d.totalAmount ∧ d.purchaseDate.valid = true) ∧
    ((computeMerchantName text = "Unknown Merchant".data ∨
        jsLength (computeMerchantName text) < 3 ∨
        computeTotalAmount text ≤ 0 ∨
        (computeDate now text).valid = false) →
      ∃ e, extractReceiptData now text = .error e ∧
        e.statusCode = 400 ∧ e.type = .VALIDATION) := by
  constructor
  · intro d h
    unfold extractReceiptData at h
    rcases hp : parseReceiptText now text with e | d'
    · simp [extractReceiptData, hp] at h
    · rcases hv : validateExtractedData d' with e | u
      · simp [extractReceiptData, hp, hv] at h
      · simp only [extractReceiptData, hp, hv, Except.ok.injEq] at h
        subst h
        unfold parseReceiptText at hp
        split at hp
        · exact absurd hp (by simp)
        · rename_i hcond
          push_neg at hcond
          simp only [Except.ok.injEq] at hp
          subst hp
          unfold validateExtractedData at hv
          split at hv
          · exact absurd hv (by simp)
          · split at hv
            · exact absurd hv (by simp)
            · split at hv
              · exact absurd hv (by simp)
              · rename_i h1 h2 h3
                push_neg at h1 h2
                dsimp only at h1 h2 h3 ⊢
                dsimp only at hcond
                refine ⟨h1.1, by omega, hcond.1, ?_, ?_⟩
                · simpa using h2.2
                · simpa using h3
  · intro hbad
    by_cases hm : computeMerchantName text = "Unknown Merchant".data ∨
        jsLength (computeMerchantName text) < 3
    · refine ⟨AppError.validationError "Could not extract merchant name from receipt",
        ?_, rfl, rfl⟩
      have hp : parseReceiptText now text =
          .error (AppError.validationError "Could not extract merchant name from receipt") := by
        unfold parseReceiptText
        rw [if_pos hm]
      simp [extractReceiptData, hp]
    · push_neg at hm
      have hne : computeMerchantName text ≠ [] := by
        intro h
        have := hm.2
        rw [h] at this
        simp [jsLength] at this
      have hp : parseReceiptText now text =
          .ok ⟨computeMerchantName text, computeDate now text,
               computeTotalAmount text, extractItems text⟩ := by
        unfold parseReceiptText
        rw [if_neg (by push_neg; exact hm)]
      by_cases ht : computeTotalAmount text ≤ 0
      · refine ⟨AppError.validationError
          "Could not extract valid total amount from receipt", ?_, rfl, rfl⟩
        have hv : validateExtractedData
            ⟨computeMerchantName text, computeDate now text,
             computeTotalAmount text, extractItems text⟩ =
            .error (AppError.validationError
              "Could not extract valid total amount from receipt") := by
          unfold validateExtractedData
          dsimp only
          rw [if_neg (by push_neg; exact ⟨hne, hm.1⟩), if_pos (Or.inr ht)]
        simp [extractReceiptData, hp, hv]
      · have hd : (computeDate now text).valid = false := by
          rcases hbad with h | h | h | h
          · exact absurd h hm.1
          · exact absurd h (by omega)
          · exact absurd h ht
          · exact h
        refine ⟨AppError.validationError
          "Could not extract valid purchase date from receipt", ?_, rfl, rfl⟩
        have hv : validateExtractedData
            ⟨computeMerchantName text, computeDate now text,
             computeTotalAmount text, extractItems text⟩ =
            .error (AppError.validationError
              "Could not extract valid purchase date from receipt") := by
          unfold validateExtractedData
          dsimp only
          rw [if_neg (by push_neg; exact ⟨hne, hm.1⟩),
            if_neg (by push_neg; exact ⟨fun h => ht (le_of_eq h), lt_of_not_le ht⟩),
            if_pos hd]
        simp [extractReceiptData, hp, hv]

instance {e a : Type} [DecidableEq e] [DecidableEq a] : DecidableEq (Except e a) :=
  fun x y =>
    match x, y with
    | .error e1, .error e2 =>
      if h : e1 = e2 then .isTrue (by rw [h]) else .isFalse (by simp [h])
    | .ok x1, .ok y1 =>
      if h : x1 = y1 then .isTrue (by rw [h]) else .isFalse (by simp [h])
    | .error _, .ok _ => .isFalse (by simp)
    | .ok _, .error _ => .isFalse (by simp)

/-- A concrete receipt text used to witness C2. -/
def c2Text : List Char := "ABCD XY\nTOTAL 5.00\n01/02/23".data

def c2Data : ParsedData :=
  ⟨"ABCD XY".data, ⟨2023, 0, 2, true⟩, 500,
   [("TOTAL".data, 500)]⟩

/-- Closed instance of C2 at a successfully parsed receipt. -/
theorem C2_witness :
    c2Data.merchantName ≠ [] ∧ 3 ≤ jsLength c2Data.merchantName ∧
    c2Data.merchantName ≠ "Unknown Merchant".data ∧
    0 < c2Data.totalAmount ∧ c2Data.purchaseDate.valid = true :=
  (C2_extract_validates ⟨1999, 0, 1, true⟩ c2Text).1 c2Data (by decide)

/-- **C4.** When neither the keyword total pattern nor the end-of-line
total pattern matches, the total amount is the largest of the values of
the `\$?\s*\d+[.,]\d{2}` matches (with `'$'` and `','` stripped before
parsing), and 0 when there is no match. -/
theorem C4_fallback_total_is_max (text : List Char)
    (hp : findTotal text = none) (ha : findAltTotal text = none) :
    (scanAmounts text = [] → computeTotalAmount text = 0) ∧
    (scanAmounts text ≠ [] →
      computeTotalAmount text ∈ (scanAmounts text).map valueStrip ∧
      ∀ v ∈ (scanAmounts text).map valueStrip, v ≤ computeTotalAmount text) := by
  constructor
  · intro hscan
    simp [computeTotalAmount, hp, ha, hscan]
  · intro hscan
    have hlen : 0 < (scanAmounts text).length := List.length_pos.mpr hscan
    have hmapne : (scanAmounts text).map valueStrip ≠ [] := by
      intro h
      exact hscan (by simpa using h)
    have htrans : ∀ (a b c : Nat),
        (fun a b => decide (b ≤ a)) a b → (fun a b => decide (b ≤ a)) b c →
        (fun a b => decide (b ≤ a)) a c := by
      intro a b c h1 h2
      simp only [decide_eq_true_eq] at *
      exact le_trans h2 h1
    have htotal : ∀ (a b : Nat),
        (fun a b => decide (b ≤ a)) a b || (fun a b => decide (b ≤ a)) b a := by
      intro a b
      simp only [Bool.or_eq_true, decide_eq_true_eq]
      exact le_total b a
    have hperm := List.mergeSort_perm ((scanAmounts text).map valueStrip)
      (fun a b => decide (b ≤ a))
    have hsorted := List.sorted_mergeSort htrans htotal
      ((scanAmounts text).map valueStrip)
    rcases hms : ((scanAmounts text).map valueStrip).mergeSort
        (fun a b => decide (b ≤ a)) with _ | ⟨a, rest⟩
    · rw [hms] at hperm
      exact absurd hperm.symm.eq_nil hmapne
    · have heq : computeTotalAmount text = a := by
        simp only [computeTotalAmount, hp, ha]
        rw [if_pos hlen, hms]
      rw [heq]
      rw [hms] at hperm hsorted
      constructor
      · exact hperm.mem_iff.mp (by simp)
      · intro v hv
        rcases List.mem_cons.mp (hperm.mem_iff.mpr hv) with h | h
        · exact le_of_eq (by simpa using h)
        · have := (List.pairwise_cons.mp hsorted).1 v (by simpa using h)
          simpa using this

/-- Closed instance of C4: in `'ab 3.50 x 1.25 y'` neither total pattern
matches, and the computed total is the maximum of the two amounts. -/
theorem C4_witness :
    computeTotalAmount "ab 3.50 x 1.25 y".data ∈
      (scanAmounts "ab 3.50 x 1.25 y".data).map valueStrip ∧
    ∀ v ∈ (scanAmounts "ab 3.50 x 1.25 y".data).map valueStrip,
      v ≤ computeTotalAmount "ab 3.50 x 1.25 y".data :=
  (C4_fallback_total_is_max _ (by decide) (by decide)).2 (by decide)

/-! ## C5: `parseDate` -/

/-- The digit character for `k`. -/
def dch (k : Fin 10) : Char := Char.ofNat (48 + k.val)

theorem dch_isDigit : ∀ k : Fin 10, (dch k).isDigit = true := by decide

theorem natOfDigits2_lt : ∀ a b : Fin 10, natOfDigits [dch a, dch b] < 100 := by decide

/-- **C5, counterexample.** On the YYYY-MM-DD string `"2023-01-15"` the
claim demands the date 2023-01-15, but the `MM/DD/YY` format
`/(\d{1,2})[-⧸](\d{1,2})[-⧸](\d{2})/` matches the substring `"23-01-15"`
first, so `parseDate` returns `new Date(2015, 22, 1)` — the calendar year
2016, not 2023. -/
theorem C5_counterexample :
    parseDate ⟨1999, 0, 1, true⟩ "2023-01-15".data = ⟨2015, 22, 1, true⟩ ∧
    (parseDate ⟨1999, 0, 1, true⟩ "2023-01-15".data).calYear = 2016 := by
  constructor
  · decide
  · decide

/-- **C5, amended.** For a four-digit-year date string `YYYYsMMsDD`
(separators `'-'` or `'/'`, two-digit month and day) `parseDate` returns
`new Date(2000 + DD, YY₂ − 1, MM)` where `YY₂` is formed by the last two
digits of the year — not the written date, because the two-digit-year
format matches the substring starting inside the year first.  For a
`MM/DD/YY` string with a two-digit year it returns
`new Date(2000 + YY, MM − 1, DD)` as claimed.  When no supported format
matches anywhere in the string, it returns the current date. -/
theorem C5_amended_parseDate (now : JSDate)
    (y1 y2 y3 y4 m1 m2 d1 d2 : Fin 10) (s1 s2 : Char)
    (hs1 : s1 = '-' ∨ s1 = '/') (hs2 : s2 = '-' ∨ s2 = '/') :
    (parseDate now
        [dch y1, dch y2, dch y3, dch y4, s1, dch m1, dch m2, s2, dch d1, dch d2] =
      mkDate (2000 + natOfDigits [dch d1, dch d2])
        ((natOfDigits [dch y3, dch y4] : Int) - 1)
        (natOfDigits [dch m1, dch m2])) ∧
    (parseDate now
        [dch m1, dch m2, s1, dch d1, dch d2, s2, dch y1, dch y2] =
      mkDate (2000 + natOfDigits [dch y1, dch y2])
        ((natOfDigits [dch m1, dch m2] : Int) - 1)
        (natOfDigits [dch d1, dch d2])) ∧
    (∀ s : List Char, scanFirst matchF1At s = none → scanFirst matchF2At s = none →
      scanFirst matchF3At s = none → parseDate now s = now) := by
  refine ⟨?_, ?_, ?_⟩
  · rcases hs1 with rfl | rfl <;> rcases hs2 with rfl | rfl <;>
      simp [parseDate, scanFirst, matchF1At, matchF2At, matchF3At, shortGroup,
        longGroup, sepSplit, parseDateBranch, mkDate, dch_isDigit, isSep,
        natOfDigits2_lt,
        (by decide : Char.isDigit '-' = false),
        (by decide : Char.isDigit '/' = false)]
  · rcases hs1 with rfl | rfl <;> rcases hs2 with rfl | rfl <;>
      simp [parseDate, scanFirst, matchF1At, matchF2At, matchF3At, shortGroup,
        longGroup, sepSplit, parseDateBranch, mkDate, dch_isDigit, isSep,
        natOfDigits2_lt,
        (by decide : Char.isDigit '-' = false),
        (by decide : Char.isDigit '/' = false)]
  · intro s h1 h2 h3
    simp [parseDate, h1, h2, h3]

/-- Closed instance of the amended C5: `"2023-01-15"` maps to
`new Date(2015, 22, 1)` and `"05/17/23"` to `new Date(2023, 4, 17)`. -/
theorem C5_witness :
    parseDate ⟨1999, 0, 1, true⟩ "2023-01-15".data = mkDate 2015 22 1 ∧
    parseDate ⟨1999, 0, 1, true⟩ "05/17/23".data = mkDate 2023 4 17 := by
  constructor
  · have h := (C5_amended_parseDate ⟨1999, 0, 1, true⟩
      2 0 2 3 0 1 1 5 '-' '-' (Or.inl rfl) (Or.inl rfl)).1
    exact h.trans (by decide)
  · have h := (C5_amended_parseDate ⟨1999, 0, 1, true⟩
      2 3 0 5 0 5 1 7 '/' '/' (Or.inr rfl) (Or.inr rfl)).2.1
    exact h.trans (by decide)

/-! ## `FileService.validatePdf` (src/services/fileService.ts)

The filesystem is an oracle mapping stored paths to file data: the byte
size and the decoded contents of the 1024-byte header buffer
(`Buffer.alloc(1024)` zero-filled, `fd.read(buffer, 0, 1024, 0)`,
`buffer.toString()`).  The success path of the I/O is modelled; the
code's catch-all converts any I/O failure into `isValid: false` with a
reason, so the function never throws. -/

structure FileData where
  size : Nat
  header : List Char
deriving DecidableEq

structure PdfCheck where
  isValid : Bool
  reason : Option String
deriving DecidableEq, Repr

def MAX_FILE_SIZE : Nat := 10 * 1024 * 1024

/-- `/%PDF-(\d+\.\d+)/` at this position: the literal `"%PDF-"`
(case-sensitive — the regex has no `i` flag), one or more digits (the
whole run — `'.'` is not a digit), a `'.'`, and at least one digit. -/
def matchPdfVersionAt (cs : List Char) : Bool :=
  match cs with
  | '%' :: 'P' :: 'D' :: 'F' :: '-' :: r =>
    let run := r.takeWhile Char.isDigit
    match r.dropWhile Char.isDigit with
    | '.' :: d :: _ => !run.isEmpty && d.isDigit
    | _ => false
  | _ => false

/-- `buffer.toString().match(/%PDF-(\d+\.\d+)/) !== null` — the version
pattern may match anywhere in the header. -/
def hasPdfVersion (header : List Char) : Bool :=
  (scanFirst (fun cs => if matchPdfVersionAt cs then some () else none) header).isSome

/-- `FileService.validatePdf` (the `%%EOF` check only logs a warning and
does not affect the result). -/
def validatePdf (fs : String → Option FileData) (filePath : String) : PdfCheck :=
  match fs filePath with
  | none => ⟨false, some "File not found"⟩
  | some fd =>
    if fd.size = 0 then ⟨false, some "File is empty"⟩
    else if MAX_FILE_SIZE < fd.size then ⟨false, some "File size exceeds 10MB limit"⟩
    else if ¬ ("%PDF-".data.isPrefixOf fd.header) then
      ⟨false, some "Invalid PDF format: Missing PDF signature"⟩
    else if ¬ (hasPdfVersion fd.header = true) then
      ⟨false, some "Invalid PDF format: Missing version number"⟩
    else ⟨true, none⟩

/-- The claim's reading: the first 1024 bytes start with `'%PDF-'`
immediately followed by a numeric version. -/
def startsWithPdfVersion (header : List Char) : Bool := matchPdfVersionAt header

/-- A stored file whose header starts with `"%PDF-"` but whose version
number only appears later. -/
def c1Fs : String → Option FileData :=
  fun p => if p = "r.pdf" then some ⟨100, "%PDF-x %PDF-1.4 obj".data⟩ else none

/-- **C1, counterexample.** The claim demands `isValid = false` whenever
the first 1024 bytes do not start with `'%PDF-'` followed by a numeric
version.  But the code checks `startsWith('%PDF-')` and then searches the
version pattern *anywhere* in the buffer, so a header
`"%PDF-x %PDF-1.4 obj"` — which does not start with a version — is
accepted. -/
theorem C1_counterexample :
    (validatePdf c1Fs "r.pdf").isValid = true ∧
    startsWithPdfVersion "%PDF-x %PDF-1.4 obj".data = false := by
  constructor
  · decide
  · decide

/-- **C1, amended.** `validatePdf` returns `isValid = true` iff the file
exists, has size in `(0, 10·1024·1024]`, its first 1024 bytes start with
`'%PDF-'`, and the header contains `'%PDF-'` followed by a numeric
version *somewhere*; every failing result carries a reason, and the
function never throws (any internal error also yields `isValid = false`
with a reason). -/
theorem C1_amended_validatePdf (fs : String → Option FileData) (filePath : String) :
    ((validatePdf fs filePath).isValid = true ↔
      ∃ fd, fs filePath = some fd ∧ 0 < fd.size ∧ fd.size ≤ MAX_FILE_SIZE ∧
        "%PDF-".data.isPrefixOf fd.header = true ∧ hasPdfVersion fd.header = true) ∧
    ((validatePdf fs filePath).isValid = false →
      (validatePdf fs filePath).reason ≠ none) := by
  unfold validatePdf
  rcases hfs : fs filePath with _ | fd
  all_goals dsimp only
  · constructor
    · constructor
      · intro h; exact absurd h (by simp)
      · rintro ⟨fd, hfd, -⟩; exact absurd hfd (by simp)
    · intro _; simp
  · by_cases h0 : fd.size = 0
    · rw [if_pos h0]
      constructor
      · constructor
        · intro h; exact absurd h (by simp)
        · rintro ⟨fd', hfd', hpos, -⟩
          simp only [Option.some.injEq] at hfd'
          subst hfd'
          omega
      · intro _; simp
    · rw [if_neg h0]
      by_cases hbig : MAX_FILE_SIZE < fd.size
      · rw [if_pos hbig]
        constructor
        · constructor
          · intro h; exact absurd h (by simp)
          · rintro ⟨fd', hfd', -, hle, -⟩
            simp only [Option.some.injEq] at hfd'
            subst hfd'
            omega
        · intro _; simp
      · rw [if_neg hbig]
        by_cases hsig : "%PDF-".data.isPrefixOf fd.header = true
        · rw [if_neg (by simp [hsig])]
          by_cases hver : hasPdfVersion fd.header = true
          · rw [if_neg (by simp [hver])]
            constructor
            · constructor
              · intro _
                exact ⟨fd, rfl, by omega, by omega, hsig, hver⟩
              · intro _; rfl
            · intro h; exact absurd h (by simp)
          · rw [if_pos (by simp [hver])]
            constructor
            · constructor
              · intro h; exact absurd h (by simp)
              · rintro ⟨fd', hfd', -, -, -, hver'⟩
                simp only [Option.some.injEq] at hfd'
                subst hfd'
                exact absurd hver' hver
            · intro _; simp
        · rw [if_pos (by simp [hsig])]
          constructor
          · constructor
            · intro h; exact absurd h (by simp)
            · rintro ⟨fd', hfd', -, -, hsig', -⟩
              simp only [Option.some.injEq] at hfd'
              subst hfd'
              exact absurd hsig' hsig
          · intro _; simp

/-- Closed instance of the amended C1: a well-formed small PDF header
validates, and an invalid result always carries a reason. -/
theorem C1_witness :
    (validatePdf (fun p => if p = "g.pdf" then some ⟨100, "%PDF-1.4 obj".data⟩ else none)
        "g.pdf").isValid = true ∧
    (validatePdf c1Fs "missing.pdf").reason ≠ none :=
  ⟨(C1_amended_validatePdf _ "g.pdf").1.mpr
      ⟨⟨100, "%PDF-1.4 obj".data⟩, by decide, by decide, by decide, by decide, by decide⟩,
    (C1_amended_validatePdf c1Fs "missing.pdf").2 (by decide)⟩

/-! ## `ReceiptController.processReceipt` (controllers/receiptController.ts)

Asynchrony is modelled by oracles: the result of `getFileById`, the
behavior of `extractReceiptData` (settling after some delay, or never),
and the time elapsed across each `await` (a list of deltas; time advances
only at `await`s).  Database writes are recorded as trace events and
succeed (the code catches and merely logs their failures).  The function
returns the event trace and either the extracted data (the 200 response)
or the error passed to `next`. -/

def PROCESS_TIMEOUT : Nat := 180000

/-- A JavaScript error: an `AppError` or a plain `Error` (only the
message matters to the model). -/
inductive JsError where
  | app (e : AppError)
  | plain (message : String)
deriving DecidableEq, Repr

structure ReceiptFileRec where
  id : Nat
  file_path : String
  is_valid : Bool
  invalid_reason : Option String
deriving DecidableEq, Repr

inductive ExtractionOutcome where
  | settles (t : Nat) (r : Except JsError ParsedData)
  | never

/-- `Promise.race([extractionPromise, timeoutPromise])`: the extraction
result if it settles within the 180000 ms timer, otherwise the timer's
`new Error('Data extraction timeout')`. -/
def raceExtract : ExtractionOutcome → Except JsError ParsedData
  | .settles t r =>
    if t ≤ PROCESS_TIMEOUT then r else .error (.plain "Data extraction timeout")
  | .never => .error (.plain "Data extraction timeout")

/-- The extraction does not settle within the 180000 ms timer. -/
def raceTimedOut : ExtractionOutcome → Bool
  | .settles t _ => decide (PROCESS_TIMEOUT < t)
  | .never => true

inductive Ev where
  | getFile (id : Nat)
  | updateProcessing (id : Nat) (isProcessed : Bool) (msg : Option String)
  | saveReceipt (merchant : List Char)
  | terminateOcr
  | procTimeoutThrown
deriving DecidableEq, Repr

structure ProcEnv where
  fileIdParam : Option Nat
  file : Option ReceiptFileRec
  outcome : ExtractionOutcome

structure Clock where
  time : Nat
  deltas : List Nat

/-- One `await`: time advances by the next oracle delta. -/
def tick (c : Clock) : Clock :=
  match c.deltas with
  | [] => c
  | d :: ds => ⟨c.time + d, ds⟩

/-- The `catch` block: if a file record was loaded, record the failure
message on it (`error.message` for an `AppError`, else
`'Processing failed: ' + message`); always clean up the OCR worker; pass
the error to `next`. -/
def processCatch (receiptFile : Option ReceiptFileRec) (err : JsError)
    (trace : List Ev) : List Ev × Except JsError ParsedData :=
  let trace2 := match receiptFile with
    | some rf =>
      let errorMessage := match err with
        | .app a => a.message
        | .plain m => "Processing failed: " ++ m
      trace ++ [Ev.updateProcessing rf.id false (some errorMessage)]
    | none => trace
  (trace2 ++ [Ev.terminateOcr], .error err)

/-- `ReceiptController.processReceipt`. -/
def processReceipt (t0 : Nat) (deltas : List Nat) (env : ProcEnv) :
    List Ev × Except JsError ParsedData :=
  let startTime := t0
  let c0 : Clock := ⟨t0, deltas⟩
  match env.fileIdParam with
  | none => processCatch none (.app (AppError.validationError "Invalid file ID")) []
  | some fileId =>
    -- if (Date.now() - startTime > PROCESS_TIMEOUT): no await has run yet,
    -- so the clock still reads the start time
    if PROCESS_TIMEOUT < c0.time - startTime then
      processCatch none (.app (AppError.processingError "Process timeout exceeded"))
        [Ev.procTimeoutThrown]
    else
      let c1 := tick c0           -- await getFileById
      match env.file with
      | none =>
        processCatch none (.app (AppError.notFoundError "File not found"))
          [Ev.getFile fileId]
      | some rf =>
        if rf.is_valid = false then
          processCatch (some rf)
            (.app (AppError.validationError
              ("Cannot process invalid receipt: " ++
                (match rf.invalid_reason with
                 | some r => r
                 | none => "File not validated"))))
            [Ev.getFile fileId]
        else
          let trace1 := [Ev.getFile fileId,
            Ev.updateProcessing fileId false (some "Processing in progress")]
          let c2 := tick c1       -- await updateFileProcessing
          let c3 := tick c2       -- await Promise.race
          match raceExtract env.outcome with
          | .error err => processCatch (some rf) err trace1
          | .ok d =>
            let c4 := tick c3     -- await saveReceiptData; await update
            (trace1 ++ [Ev.saveReceipt d.merchantName,
              Ev.updateProcessing fileId true (some "Processing completed successfully")],
             .ok d)

/-- **C6.** If the extraction does not settle within 180000 ms, the race
rejects with `'Data extraction timeout'`: the request fails with that
error, the file's `is_processed` flag is set to `false` with the failure
message recorded, and no receipt row is saved. -/
theorem C6_extraction_timeout (t0 : Nat) (deltas : List Nat) (env : ProcEnv)
    (id : Nat) (rf : ReceiptFileRec)
    (hparam : env.fileIdParam = some id)
    (hfile : env.file = some rf)
    (hvalid : rf.is_valid = true)
    (htime : raceTimedOut env.outcome = true) :
    processReceipt t0 deltas env =
      ([Ev.getFile id,
        Ev.updateProcessing id false (some "Processing in progress"),
        Ev.updateProcessing rf.id false
          (some "Processing failed: Data extraction timeout"),
        Ev.terminateOcr],
       .error (.plain "Data extraction timeout")) ∧
    (∀ m, Ev.saveReceipt m ∉ (processReceipt t0 deltas env).1) := by
  have hrace : raceExtract env.outcome = .error (.plain "Data extraction timeout") := by
    rcases ho : env.outcome with ⟨t, r⟩ | _
    · rw [ho] at htime
      simp only [raceTimedOut, decide_eq_true_eq] at htime
      simp [raceExtract, Nat.not_le.mpr htime]
    · rfl
  have hmain : processReceipt t0 deltas env =
      ([Ev.getFile id,
        Ev.updateProcessing id false (some "Processing in progress"),
        Ev.updateProcessing rf.id false
          (some "Processing failed: Data extraction timeout"),
        Ev.terminateOcr],
       .error (.plain "Data extraction timeout")) := by
    unfold processReceipt
    rw [hparam]
    dsimp only
    rw [if_neg (by omega)]
    rw [hfile]
    dsimp only
    rw [if_neg (by simp [hvalid])]
    rw [hrace]
    simp [processCatch]
  exact ⟨hmain, by rw [hmain]; intro m; simp⟩

def c6Env : ProcEnv := ⟨some 1, some ⟨1, "uploads/r.pdf", true, none⟩, .never⟩

/-- Closed instance of C6: with an extraction that never settles, the
request fails with the timeout error and the trace records the failed
processing status and no save. -/
theorem C6_witness :
    processReceipt 0 [5, 7] c6Env =
      ([Ev.getFile 1,
        Ev.updateProcessing 1 false (some "Processing in progress"),
        Ev.updateProcessing 1 false
          (some "Processing failed: Data extraction timeout"),
        Ev.terminateOcr],
       .error (.plain "Data extraction timeout")) :=
  (C6_extraction_timeout 0 [5, 7] c6Env 1 ⟨1, "uploads/r.pdf", true, none⟩
    rfl rfl rfl rfl).1

/-- **C10.** The `'Process timeout exceeded'` branch of `processReceipt`
is dead: the elapsed-time guard is evaluated before any `await`, so under
a model in which time advances only across `await`s it reads
`t0 - t0 = 0 > 180000`, which is false on every input. -/
theorem C10_process_timeout_unreachable (t0 : Nat) (deltas : List Nat) (env : ProcEnv) :
    Ev.procTimeoutThrown ∉ (processReceipt t0 deltas env).1 := by
  unfold processReceipt
  rcases env.fileIdParam with _ | fileId
  · simp [processCatch]
  · dsimp only
    rw [if_neg (by omega)]
    rcases env.file with _ | rf
    · simp [processCatch]
    · dsimp only
      by_cases hv : rf.is_valid = false
      · rw [if_pos hv]
        simp [processCatch]
      · rw [if_neg hv]
        rcases raceExtract env.outcome with err | d
        · simp [processCatch]
        · simp

/-- Closed instance of C10. -/
theorem C10_witness : Ev.procTimeoutThrown ∉ (processReceipt 7 [1, 2, 3] c6Env).1 :=
  C10_process_timeout_unreachable 7 [1, 2, 3] c6Env

end ExtractPdf
